/-
  Verification of the order/activity data-consistency logic of the
  delivery-orders application (`DeliveryDatabase` in `main.py`).

  The two SQLite tables are embedded as Lean lists:
    * `orders(id, customer_name, product, quantity, price, delivery_date, status)`
    * `activity(id, date, orders_count, revenue)`
  SQLite INTEGER columns are modelled as `Int` (they may go negative),
  REAL columns as `Rat` (exact decimal arithmetic), DATE columns as the
  ISO strings the application stores, compared with the lexicographic
  string order (SQLite's BINARY collation on ISO dates).
  AUTOINCREMENT keys are modelled by explicit `next…Id` counters.

  Each method of `DeliveryDatabase` becomes a pure function on the state.
-/
import Mathlib

set_option linter.unusedVariables false

/- The Batteries rational-number operations are irreducible by default, which
prevents `decide` from evaluating concrete revenue arithmetic; restore
reducibility locally (proofs are still kernel-checked). -/
set_option allowUnsafeReducibility true
attribute [local semireducible] Rat.mul Rat.add Rat.sub Rat.inv Rat.div

namespace Delivery

/-- A row of the `orders` table. -/
structure Order where
  id : Nat
  customer_name : String
  product : String
  quantity : Int
  price : Rat
  delivery_date : String
  status : String
  deriving DecidableEq, Repr

/-- A row of the `activity` table. -/
structure ActivityRecord where
  id : Nat
  date : String
  orders_count : Int
  revenue : Rat
  deriving DecidableEq, Repr

/-- The database state: the two tables plus the autoincrement counters. -/
structure DB where
  orders : List Order
  activity : List ActivityRecord
  nextOrderId : Nat
  nextActivityId : Nat
  deriving DecidableEq, Repr

/-- The freshly created database: both tables empty (`_check_and_create_tables`).
SQLite row ids start at 1. -/
def emptyDB : DB := ⟨[], [], 1, 1⟩

/-- The default order status stored by `add_order` (the source stores the
Russian literal; the specification calls this status "processing"). -/
def processingStatus : String := "в обработке"

/-- Line total of one order: `price * quantity`. -/
def lineTotal (o : Order) : Rat := o.price * (o.quantity : Rat)

/-- Sum of line totals over a list of order rows (`SUM(price * quantity)`). -/
def sumTotals (l : List Order) : Rat := (l.map lineTotal).sum

/-- Number of rows of `l` whose `delivery_date` is `d`, as an SQLite INTEGER. -/
def countD (l : List Order) (d : String) : Int :=
  ((l.filter (fun o => o.delivery_date == d)).length : Int)

/-- Sum of line totals of the rows of `l` whose `delivery_date` is `d`. -/
def revD (l : List Order) (d : String) : Rat :=
  sumTotals (l.filter (fun o => o.delivery_date == d))

/-- `DeliveryDatabase.add_order`: inserts the new order row (status
`processingStatus`), then upserts the activity row keyed by the full
`delivery_date` string: `UPDATE … WHERE date = ?` if a row exists
(the `SELECT id FROM activity WHERE date = ?` fetch), else
`INSERT INTO activity (date, orders_count, revenue) VALUES (?, 1, ?)`.
Returns `(lastrowid, new state)`. -/
def add_order (customer product : String) (quantity : Int) (price : Rat)
    (delivery_date : String) (db : DB) : Nat × DB :=
  let newOrder : Order :=
    ⟨db.nextOrderId, customer, product, quantity, price, delivery_date, processingStatus⟩
  let total_amount : Rat := price * (quantity : Rat)
  match db.activity.find? (fun r => r.date == delivery_date) with
  | some _ =>
      (db.nextOrderId,
       { orders := db.orders ++ [newOrder]
         activity := db.activity.map (fun r =>
           if r.date == delivery_date then
             { r with orders_count := r.orders_count + 1, revenue := r.revenue + total_amount }
           else r)
         nextOrderId := db.nextOrderId + 1
         nextActivityId := db.nextActivityId })
  | none =>
      (db.nextOrderId,
       { orders := db.orders ++ [newOrder]
         activity := db.activity ++ [⟨db.nextActivityId, delivery_date, 1, total_amount⟩]
         nextOrderId := db.nextOrderId + 1
         nextActivityId := db.nextActivityId + 1 })

/-- The date-mangling step of `delete_order`: Python's
`order_date.split(' ')[0] if ' ' in order_date else order_date`
(the segment of the string before its first space). -/
def dateOnly (s : String) : String :=
  if ' ' ∈ s.toList then ⟨s.toList.takeWhile (fun c => c ≠ ' ')⟩ else s

/-- `DeliveryDatabase.delete_order`: fetches the order row by id; if found,
decrements the activity row whose `date` equals `dateOnly` of the order's
delivery date — provided such a row exists (`SELECT id FROM activity WHERE
date = ?` guard); in every case runs `DELETE FROM orders WHERE id = ?`.
A missing id is a silent no-op. -/
def delete_order (order_id : Nat) (db : DB) : DB :=
  match db.orders.find? (fun o => o.id == order_id) with
  | none => { db with orders := db.orders.filter (fun o => o.id ≠ order_id) }
  | some o =>
      let revenue : Rat := o.price * (o.quantity : Rat)
      let order_date_only := dateOnly o.delivery_date
      let activity' :=
        match db.activity.find? (fun r => r.date == order_date_only) with
        | some _ =>
            db.activity.map (fun r =>
              if r.date == order_date_only then
                { r with orders_count := r.orders_count - 1, revenue := r.revenue - revenue }
              else r)
        | none => db.activity
      { db with
        orders := db.orders.filter (fun o => o.id ≠ order_id)
        activity := activity' }

/- The default decidability instance for `≤` on `String` is stated through
`String.ltb`, which the kernel cannot evaluate; route it through the
(equivalent, kernel-computable) lexicographic order on character lists so
that concrete states evaluate. -/
instance (priority := 2000) strDecLE : DecidableRel (fun a b : String => a ≤ b) :=
  fun a b => decidable_of_iff (a.toList ≤ b.toList) String.le_iff_toList_le.symm

/-- Descending order on `delivery_date` used by `get_all_orders`
(`ORDER BY delivery_date DESC`, string comparison). -/
def dateDesc (a b : Order) : Prop := b.delivery_date ≤ a.delivery_date

instance : DecidableRel dateDesc := fun a b =>
  inferInstanceAs (Decidable (b.delivery_date ≤ a.delivery_date))

/-- `DeliveryDatabase.get_all_orders`:
`SELECT * FROM orders ORDER BY delivery_date DESC`. -/
def get_all_orders (db : DB) : List Order :=
  db.orders.insertionSort dateDesc

/-- Ascending order on `date` used by the activity query of
`get_revenue_stats` (`ORDER BY date ASC`). -/
def actDateAsc (a b : ActivityRecord) : Prop := a.date ≤ b.date

instance : DecidableRel actDateAsc := fun a b =>
  inferInstanceAs (Decidable (a.date ≤ b.date))

/-- The primary query of `get_revenue_stats`:
`SELECT date, revenue FROM activity WHERE date >= cutoff ORDER BY date ASC`. -/
def primaryStats (cutoff : String) (activity : List ActivityRecord) : List (String × Rat) :=
  ((activity.filter (fun r => cutoff ≤ r.date)).insertionSort actDateAsc).map
    (fun r => (r.date, r.revenue))

/-- The fallback query of `get_revenue_stats`:
`SELECT delivery_date, SUM(price*quantity) FROM orders WHERE delivery_date >= cutoff
GROUP BY delivery_date ORDER BY delivery_date ASC`: one row per distinct
delivery date among the matching order rows, sorted ascending. -/
def fallbackStats (cutoff : String) (orders : List Order) : List (String × Rat) :=
  let ms := orders.filter (fun o => cutoff ≤ o.delivery_date)
  (((ms.map (fun o => o.delivery_date)).dedup).insertionSort (· ≤ ·)).map
    (fun d => (d, sumTotals (ms.filter (fun o => o.delivery_date == d))))

/-- `DeliveryDatabase.get_revenue_stats`, parametrised by the cutoff string
returned by SQLite's `date('now', '-{days} days')`: the activity query, and
when it yields no rows, the grouped orders query. -/
def get_revenue_stats (cutoff : String) (db : DB) : List (String × Rat) :=
  let stats := primaryStats cutoff db.activity
  if stats.isEmpty then fallbackStats cutoff db.orders else stats

/-- A calendar date (proleptic Gregorian), as SQLite's `date` function uses. -/
structure Date where
  year : Nat
  month : Nat
  day : Nat
  deriving DecidableEq, Repr

/-- Day count of a civil date measured from 0000-03-01
(standard days-from-civil computation on the proleptic Gregorian calendar,
for years ≥ 1). -/
def toDayNumber (d : Date) : Nat :=
  let y := if d.month ≤ 2 then d.year - 1 else d.year
  let mp := if d.month ≤ 2 then d.month + 9 else d.month - 3
  365 * y + y / 4 - y / 100 + y / 400 + (153 * mp + 2) / 5 + (d.day - 1)

/-- Inverse of `toDayNumber` (civil-from-days on the proleptic Gregorian
calendar). -/
def fromDayNumber (n : Nat) : Date :=
  let era := n / 146097
  let doe := n % 146097
  let yoe := (doe - doe / 1460 + doe / 36524 - doe / 146096) / 365
  let doy := doe - (365 * yoe + yoe / 4 - yoe / 100)
  let mp := (5 * doy + 2) / 153
  let day := doy - (153 * mp + 2) / 5 + 1
  let month := if mp < 10 then mp + 3 else mp - 9
  ⟨era * 400 + yoe + (if month ≤ 2 then 1 else 0), month, day⟩

/-- Zero-padded decimal rendering of width 2. -/
def pad2 (n : Nat) : String :=
  if n < 10 then "0" ++ toString n else toString n

/-- Zero-padded decimal rendering of width 4. -/
def pad4 (n : Nat) : String :=
  if n < 10 then "000" ++ toString n
  else if n < 100 then "00" ++ toString n
  else if n < 1000 then "0" ++ toString n
  else toString n

/-- ISO `YYYY-MM-DD` rendering of a date, as SQLite's `date` returns. -/
def formatDate (d : Date) : String :=
  pad4 d.year ++ "-" ++ pad2 d.month ++ "-" ++ pad2 d.day

/-- The window cutoff `date('now', '-{days} days')`: today minus `days`
calendar days, rendered as an ISO string. -/
def cutoffStr (today : Date) (days : Nat) : String :=
  formatDate (fromDayNumber (toDayNumber today - days))

/-- `DeliveryDatabase.get_revenue_stats(days)` with the current date made
explicit: the cutoff is `date('now', '-{days} days')`. -/
def get_revenue_stats_days (today : Date) (days : Nat) (db : DB) : List (String × Rat) :=
  get_revenue_stats (cutoffStr today days) db

/-- The record returned by `get_general_statistics`. -/
structure GeneralStats where
  total_orders : Nat
  total_revenue : Rat
  average_order_value : Rat
  deriving DecidableEq, Repr

/-- `DeliveryDatabase.get_general_statistics`:
`SELECT COUNT(*), SUM(price*quantity) FROM orders`, with SQLite's `SUM`
returning NULL on an empty table and Python's truthiness checks
(`result[0] if result and result[0] else 0`, likewise for the sum) mapping
NULL/zero to 0, then `total_revenue / total_orders if total_orders > 0 else 0`. -/
def get_general_statistics (db : DB) : GeneralStats :=
  let countRow : Nat := db.orders.length
  let sumRow : Option Rat := if db.orders.isEmpty then none else some (sumTotals db.orders)
  let total_orders : Nat := if countRow ≠ 0 then countRow else 0
  let total_revenue : Rat :=
    match sumRow with
    | none => 0
    | some v => if v ≠ 0 then v else 0
  let average_order_value : Rat :=
    if total_orders > 0 then total_revenue / (total_orders : Rat) else 0
  ⟨total_orders, total_revenue, average_order_value⟩

/-- Looking an activity row up by its (unique) date key. -/
def findActivity (db : DB) (d : String) : Option ActivityRecord :=
  db.activity.find? (fun r => r.date == d)

/-- The `orders_count` recorded for date `d` (0 when no row exists). -/
def activityCount (db : DB) (d : String) : Int :=
  (findActivity db d).elim 0 (fun r => r.orders_count)

/-- The `revenue` recorded for date `d` (0 when no row exists). -/
def activityRevenue (db : DB) (d : String) : Rat :=
  (findActivity db d).elim 0 (fun r => r.revenue)

/-- Schema well-formedness of a database state: `orders.id` is a primary key
(no duplicates), `activity.date` is UNIQUE, and the autoincrement counter is
ahead of every existing order id. -/
def WF (db : DB) : Prop :=
  (db.orders.map (fun o => o.id)).Nodup ∧
  (db.activity.map (fun r => r.date)).Nodup ∧
  ∀ o ∈ db.orders, o.id < db.nextOrderId

instance : DecidablePred WF := fun db => by
  unfold WF; infer_instance

/-- A plain ISO `YYYY-MM-DD` string: ten characters, digits in the year,
month and day positions, dashes between. -/
def isPlainISO (s : String) : Bool :=
  match s.toList with
  | [y1, y2, y3, y4, c1, m1, m2, c2, d1, d2] =>
      y1.isDigit && y2.isDigit && y3.isDigit && y4.isDigit &&
      c1 == '-' && m1.isDigit && m2.isDigit && c2 == '-' &&
      d1.isDigit && d2.isDigit
  | _ => false

/-- One mutating call on the store. -/
inductive Op where
  | add (customer product : String) (quantity : Int) (price : Rat) (delivery_date : String)
  | del (order_id : Nat)
  deriving DecidableEq, Repr

/-- Executing one operation on the state. -/
def applyOp (db : DB) (op : Op) : DB :=
  match op with
  | .add c p q pr d => (add_order c p q pr d db).2
  | .del i => delete_order i db

/-- Executing a sequence of operations starting from the empty store. -/
def runOps (ops : List Op) : DB := ops.foldl applyOp emptyDB

/-- The delivery date an `add` operation carries, if any. -/
def Op.addDate : Op → Option String
  | .add _ _ _ _ d => some d
  | .del _ => none

/-- Whether the delivery date carried by an operation (if any) is a plain
ISO `YYYY-MM-DD` string. -/
def Op.datePlain : Op → Bool
  | .add _ _ _ _ d => isPlainISO d
  | .del _ => true

/-- Whether the line total carried by an `add` operation is nonnegative. -/
def Op.lineNonneg : Op → Bool
  | .add _ _ q pr _ => decide (0 ≤ pr * (q : Rat))
  | .del _ => true

/-- The inductive invariant tying the activity table to the orders table in
states reachable by space-free adds and deletes: the schema constraints hold,
every live order's date is space-free and owns an activity record, and every
activity record's counters equal the count and summed line totals of the live
orders with its date. -/
def Inv (db : DB) : Prop :=
  WF db ∧
  (∀ o ∈ db.orders, ' ' ∉ o.delivery_date.toList) ∧
  (∀ o ∈ db.orders, ∃ r ∈ db.activity, r.date = o.delivery_date) ∧
  (∀ r ∈ db.activity, r.orders_count = countD db.orders r.date ∧
    r.revenue = revD db.orders r.date)

/-! ### Order-relation instances for the sort lemmas -/

instance : IsTotal Order dateDesc :=
  ⟨fun a b => le_total b.delivery_date a.delivery_date⟩

instance : IsTrans Order dateDesc :=
  ⟨fun _ _ _ h1 h2 => le_trans h2 h1⟩

instance : IsTotal ActivityRecord actDateAsc :=
  ⟨fun a b => le_total a.date b.date⟩

instance : IsTrans ActivityRecord actDateAsc :=
  ⟨fun _ _ _ h1 h2 => le_trans h1 h2⟩

/-- Ascending order on the date component of a `(date, revenue)` result
pair. -/
def pairDateAsc (a b : String × Rat) : Prop := a.1 ≤ b.1

/-- The activity table the specification prescribes for a given orders table
(spec §3 invariant): one record per distinct delivery date, whose
`orders_count` and `revenue` are the number and summed line totals of the
live orders with that date. -/
def specActivity (orders : List Order) : List ActivityRecord :=
  ((orders.map (fun o => o.delivery_date)).dedup).map
    (fun d => ⟨0, d, countD orders d, revD orders d⟩)

/-! ### Sample states and operation sequences used in witnesses -/

/-- The single example order used in several witnesses. -/
def sampleOrder : Order := ⟨1, "Иван", "Молоко", 2, 50, "2025-12-03", processingStatus⟩

/-- Sample database with a single order (id 1), for witnesses. -/
def sampleDB : DB :=
  ⟨[sampleOrder], [⟨1, "2025-12-03", 1, 100⟩], 2, 2⟩

/-- The state reached by adding the two example orders (2 × 50.0 and
1 × 30.0). -/
def twoOrdersDB : DB :=
  runOps [.add "Иван" "Молоко" 2 50 "2025-12-03", .add "Петр" "Хлеб" 1 30 "2025-12-03"]

/-- An order whose delivery date carries a time suffix after a space. -/
def spaceOrder : Order := ⟨1, "Иван", "Молоко", 1, 10, "2025-12-03 00:00:00", processingStatus⟩

/-- State holding `spaceOrder` and the activity record its insertion created
(keyed by the full date string). -/
def spaceDB : DB := ⟨[spaceOrder], [⟨1, "2025-12-03 00:00:00", 1, 10⟩], 2, 2⟩

/-- A state whose only activity record is dated after 2025-10-12. -/
def futureDB : DB := ⟨[], [⟨1, "2025-12-01", 1, 5⟩], 1, 2⟩

/-- A state with one order and no activity rows at all. -/
def noActivityDB : DB :=
  ⟨[⟨1, "Иван", "Молоко", 2, 50, "2025-12-03", processingStatus⟩], [], 2, 1⟩

/-- An operation sequence whose single add carries a negative line total. -/
def negPriceOps : List Op := [.add "Иван" "Молоко" 1 (-5) "2025-01-01"]

/-- An operation sequence that adds an order and deletes it again. -/
def addDelOps : List Op := [.add "Иван" "Молоко" 2 50 "2025-12-03", .del 1]

/-! ### Generic helper lemmas -/

/-- `find?` over a map by a function that does not affect the predicate. -/
theorem find?_map_pres {α : Type} (g : α → α) (p : α → Bool)
    (h : ∀ a, p (g a) = p a) (l : List α) :
    (l.map g).find? p = (l.find? p).map g := by
  rw [List.find?_map]
  have : p ∘ g = p := funext h
  rw [this]

/-- In a list of orders with pairwise distinct ids, `find?` by the id of a
member returns that member. -/
theorem find?_id_of_nodup (l : List Order) (h : (l.map (fun o => o.id)).Nodup)
    (o : Order) (ho : o ∈ l) :
    l.find? (fun x => x.id == o.id) = some o := by
  induction l with
  | nil => cases ho
  | cons x xs ih =>
      rw [List.map_cons, List.nodup_cons] at h
      rcases List.mem_cons.mp ho with rfl | hmem
      · simp [List.find?]
      · have hne : x.id ≠ o.id := by
          intro he
          exact h.1 (he ▸ List.mem_map_of_mem (fun o => o.id) hmem)
        rw [List.find?]
        simp only [beq_eq_false_iff_ne.mpr hne]
        exact ih h.2 hmem

/-- In a list of activity records with pairwise distinct dates, `find?` by the
date of a member returns that member. -/
theorem find?_date_of_nodup (l : List ActivityRecord)
    (h : (l.map (fun r => r.date)).Nodup) (r : ActivityRecord) (hr : r ∈ l) :
    l.find? (fun x => x.date == r.date) = some r := by
  induction l with
  | nil => cases hr
  | cons x xs ih =>
      rw [List.map_cons, List.nodup_cons] at h
      rcases List.mem_cons.mp hr with rfl | hmem
      · simp [List.find?]
      · have hne : x.date ≠ r.date := by
          intro he
          exact h.1 (he ▸ List.mem_map_of_mem (fun r => r.date) hmem)
        rw [List.find?]
        simp only [beq_eq_false_iff_ne.mpr hne]
        exact ih h.2 hmem

/-! ### C6: deleting a nonexistent id is a no-op -/

/-- Helper: structure eta for `DB`. -/
theorem db_eta (db : DB) :
    ({ orders := db.orders, activity := db.activity,
       nextOrderId := db.nextOrderId, nextActivityId := db.nextActivityId } : DB) = db :=
  rfl

/-- `delete_order` on an id carried by no live order row leaves the state
unchanged. -/
theorem delete_order_of_not_found (db : DB) (order_id : Nat)
    (h : ∀ o ∈ db.orders, o.id ≠ order_id) :
    delete_order order_id db = db := by
  unfold delete_order
  have hfind : db.orders.find? (fun o => o.id == order_id) = none := by
    rw [List.find?_eq_none]
    intro o ho
    simpa using h o ho
  rw [hfind]
  have hfilter : db.orders.filter (fun o => o.id ≠ order_id) = db.orders := by
    rw [List.filter_eq_self]
    intro o ho
    simpa using h o ho
  simp only [hfilter]

/-- C6: for every state and every `order_id` not equal to the id of any live
order row, `delete_order` raises no error (it is a total function on states)
and leaves both tables — and the whole state — unchanged. -/
theorem delete_missing_id_noop (db : DB) (order_id : Nat)
    (h : ∀ o ∈ db.orders, o.id ≠ order_id) :
    delete_order order_id db = db :=
  delete_order_of_not_found db order_id h

/-- Witness for C6 at a concrete state: deleting absent id 999 changes
nothing. -/
theorem delete_missing_id_noop_witness : delete_order 999 sampleDB = sampleDB :=
  delete_missing_id_noop sampleDB 999 (by decide)

/-! ### C7: general statistics -/

/-- C7: `get_general_statistics` returns the count of all live order rows,
the sum of their line totals (0 when there are none), and their quotient when
the count is positive (0 otherwise); in particular on the two example orders
it returns (2, 130, 65). -/
theorem general_statistics_spec :
    (∀ db : DB,
      get_general_statistics db =
        ⟨db.orders.length, sumTotals db.orders,
         if 0 < db.orders.length then sumTotals db.orders / (db.orders.length : Rat)
         else 0⟩) ∧
    get_general_statistics twoOrdersDB = ⟨2, 130, 65⟩ := by
  constructor
  · intro db
    unfold get_general_statistics
    by_cases hemp : db.orders.isEmpty
    · have : db.orders = [] := List.isEmpty_iff.mp hemp
      simp [this, sumTotals]
    · have hlen : db.orders.length ≠ 0 := by
        intro h0
        exact hemp (List.isEmpty_iff.mpr (List.length_eq_zero.mp h0))
      have hpos : 0 < db.orders.length := Nat.pos_of_ne_zero hlen
      simp only [hemp, if_neg hlen, if_pos hpos, ite_not, Bool.false_eq_true, if_false]
      by_cases hsum : sumTotals db.orders = 0
      · simp [hsum]
      · simp [hsum]
  · decide

/-! ### C8: listing all orders -/

/-- C8: `get_all_orders` returns all live order rows (a permutation of the
table, no filtering), sorted by `delivery_date` descending, and the empty
sequence (not an error) when no orders exist. -/
theorem get_all_orders_spec (db : DB) :
    (get_all_orders db).Perm db.orders ∧
    List.Sorted dateDesc (get_all_orders db) ∧
    get_all_orders { db with orders := [] } = [] :=
  ⟨List.perm_insertionSort _ _, List.sorted_insertionSort _ _, rfl⟩

/-! ### Helpers about the activity-table update maps -/

/-- `find?` by date over an update map that rewrites the records with date
`k` but never changes a date. -/
theorem find?_update_date (l : List ActivityRecord) (k D : String)
    (f : ActivityRecord → ActivityRecord) (hf : ∀ r, (f r).date = r.date) :
    (l.map (fun r => if r.date == k then f r else r)).find? (fun r => r.date == D) =
      (l.find? (fun r => r.date == D)).map (fun r => if r.date == k then f r else r) := by
  apply find?_map_pres
  intro a
  by_cases h : a.date = k
  · simp [h, hf]
  · simp [h]

/-- A digit character is not the space character. -/
theorem ne_space_of_isDigit (c : Char) (h : c.isDigit = true) : c ≠ ' ' := by
  intro he
  subst he
  exact absurd h (by decide)

/-- A plain ISO date string contains no space. -/
theorem isPlainISO_no_space (s : String) (h : isPlainISO s = true) :
    ' ' ∉ s.toList := by
  unfold isPlainISO at h
  split at h
  case h_1 y1 y2 y3 y4 c1 m1 m2 c2 d1 d2 heq =>
    simp only [Bool.and_eq_true, beq_iff_eq] at h
    obtain ⟨⟨⟨⟨⟨⟨⟨⟨⟨h1, h2⟩, h3⟩, h4⟩, h5⟩, h6⟩, h7⟩, h8⟩, h9⟩, h10⟩ := h
    rw [heq]
    simp only [List.mem_cons, List.not_mem_nil, or_false]
    rintro (rfl | rfl | rfl | rfl | rfl | rfl | rfl | rfl | rfl | rfl) <;>
      first
        | exact absurd (by assumption : Char.isDigit ' ' = true) (by decide)
        | exact absurd (by assumption : (' ' : Char) = '-') (by decide)
  case h_2 => exact absurd h (by simp)

/-- On a string with no space, the date-mangling step of `delete_order` is
the identity. -/
theorem dateOnly_eq_of_no_space (s : String) (h : ' ' ∉ s.toList) :
    dateOnly s = s := by
  unfold dateOnly
  rw [if_neg h]

/-- On a string with a space, the date-mangling step of `delete_order`
returns a different string (its space-free prefix). -/
theorem dateOnly_ne_of_space (s : String) (h : ' ' ∈ s.toList) :
    dateOnly s ≠ s := by
  unfold dateOnly
  rw [if_pos h]
  intro he
  have hl : (s.toList.takeWhile (fun c => c ≠ ' ')) = s.toList := congrArg String.toList he
  rw [← hl] at h
  have := List.mem_takeWhile_imp h
  simp at this

/-- With pairwise distinct ids, filtering an order row out by its id is list
erasure of that row. -/
theorem filter_ne_id_eq_erase (l : List Order) (h : (l.map (fun o => o.id)).Nodup)
    (o : Order) (ho : o ∈ l) :
    l.filter (fun x => x.id ≠ o.id) = l.erase o := by
  induction l with
  | nil => cases ho
  | cons x xs ih =>
      rw [List.map_cons, List.nodup_cons] at h
      by_cases hx : x.id = o.id
      · have hxo : x = o := by
          rcases List.mem_cons.mp ho with rfl | hmem
          · rfl
          · exact absurd (hx ▸ List.mem_map_of_mem (fun o => o.id) hmem) h.1
        subst hxo
        rw [List.erase_cons_head]
        rw [List.filter_cons_of_neg (by simp)]
        rw [List.filter_eq_self]
        intro a ha
        simp only [ne_eq, decide_eq_true_eq]
        intro hae
        exact h.1 (hae ▸ List.mem_map_of_mem (fun o => o.id) ha)
      · have hxo : x ≠ o := fun he => hx (he ▸ rfl)
        have hmem : o ∈ xs := by
          rcases List.mem_cons.mp ho with rfl | hmem
          · exact absurd rfl hxo
          · exact hmem
        rw [List.erase_cons_tail (by simpa using hxo)]
        rw [List.filter_cons_of_pos (by simpa using hx)]
        rw [ih h.2 hmem]

/-! ### C3: effect of add_order -/

/-- C3: `add_order` appends exactly one new order row carrying the given
fields and the processing status, increments the activity count for the
delivery date by 1 and its revenue by `quantity × price` (a fresh record with
count 1 being created when none existed), and touches no other date's
record. -/
theorem add_order_effect (db : DB) (c p : String) (q : Int) (pr : Rat) (d : String)
    (hWF : WF db) :
    (add_order c p q pr d db).1 = db.nextOrderId ∧
    (add_order c p q pr d db).2.orders =
      db.orders ++ [⟨db.nextOrderId, c, p, q, pr, d, processingStatus⟩] ∧
    activityCount (add_order c p q pr d db).2 d = activityCount db d + 1 ∧
    activityRevenue (add_order c p q pr d db).2 d = activityRevenue db d + pr * q ∧
    (findActivity (add_order c p q pr d db).2 d).isSome ∧
    (findActivity db d = none →
      findActivity (add_order c p q pr d db).2 d =
        some ⟨db.nextActivityId, d, 1, pr * q⟩) ∧
    ∀ D, D ≠ d → findActivity (add_order c p q pr d db).2 D = findActivity db D := by
  rcases hfind : db.activity.find? (fun r => r.date == d) with _ | r
  · unfold add_order
    rw [hfind]
    dsimp only
    refine ⟨rfl, rfl, ?_, ?_, ?_, ?_, ?_⟩
    · unfold activityCount findActivity
      simp only [List.find?_append, hfind, Option.none_or]
      simp [List.find?]
    · unfold activityRevenue findActivity
      simp only [List.find?_append, hfind, Option.none_or]
      simp [List.find?]
    · unfold findActivity
      simp only [List.find?_append, hfind, Option.none_or]
      simp [List.find?]
    · intro _
      unfold findActivity
      simp only [List.find?_append, hfind, Option.none_or]
      simp [List.find?]
    · intro D hD
      unfold findActivity
      simp only [List.find?_append]
      have : ([(⟨db.nextActivityId, d, 1, pr * (q : Rat)⟩ : ActivityRecord)].find?
          (fun r => r.date == D)) = none := by
        simp [List.find?, beq_eq_false_iff_ne.mpr (fun he => hD he.symm)]
      rw [this, Option.or_none]
  · have hrd0 := List.find?_some hfind
    have hrd : r.date = d := by simpa using hrd0
    unfold add_order
    rw [hfind]
    dsimp only
    refine ⟨rfl, rfl, ?_, ?_, ?_, ?_, ?_⟩
    · simp only [activityCount, findActivity]
      rw [find?_update_date db.activity d d
        (fun r => { r with orders_count := r.orders_count + 1,
                           revenue := r.revenue + pr * (q : Rat) })
        (fun r => rfl), hfind]
      simp [hrd]
    · simp only [activityRevenue, findActivity]
      rw [find?_update_date db.activity d d
        (fun r => { r with orders_count := r.orders_count + 1,
                           revenue := r.revenue + pr * (q : Rat) })
        (fun r => rfl), hfind]
      simp [hrd]
    · simp only [findActivity]
      rw [find?_update_date db.activity d d
        (fun r => { r with orders_count := r.orders_count + 1,
                           revenue := r.revenue + pr * (q : Rat) })
        (fun r => rfl), hfind]
      simp
    · intro hnone
      unfold findActivity at hnone
      rw [hfind] at hnone
      cases hnone
    · intro D hD
      simp only [findActivity]
      rw [find?_update_date db.activity d D
        (fun r => { r with orders_count := r.orders_count + 1,
                           revenue := r.revenue + pr * (q : Rat) })
        (fun r => rfl)]
      rcases hfD : db.activity.find? (fun r => r.date == D) with _ | r'
      · rw [hfD]
        rfl
      · rw [hfD]
        have hr0 := List.find?_some hfD
        have hr'D : r'.date = D := by simpa using hr0
        have : (r'.date == d) = false := by
          rw [beq_eq_false_iff_ne]
          intro he
          exact hD (hr'D ▸ he)
        rw [Option.map_some', if_neg (by simp [this])]

/-- Witness for C3 at a concrete well-formed state. -/
theorem add_order_effect_witness :
    WF sampleDB ∧
    ((add_order "X" "Y" 3 7 "2025-12-05" sampleDB).1 = sampleDB.nextOrderId ∧
     (add_order "X" "Y" 3 7 "2025-12-05" sampleDB).2.orders =
       sampleDB.orders ++ [⟨sampleDB.nextOrderId, "X", "Y", 3, 7, "2025-12-05", processingStatus⟩] ∧
     activityCount (add_order "X" "Y" 3 7 "2025-12-05" sampleDB).2 "2025-12-05" =
       activityCount sampleDB "2025-12-05" + 1 ∧
     activityRevenue (add_order "X" "Y" 3 7 "2025-12-05" sampleDB).2 "2025-12-05" =
       activityRevenue sampleDB "2025-12-05" + 7 * 3 ∧
     (findActivity (add_order "X" "Y" 3 7 "2025-12-05" sampleDB).2 "2025-12-05").isSome ∧
     (findActivity sampleDB "2025-12-05" = none →
       findActivity (add_order "X" "Y" 3 7 "2025-12-05" sampleDB).2 "2025-12-05" =
         some ⟨sampleDB.nextActivityId, "2025-12-05", 1, 7 * 3⟩) ∧
     ∀ D, D ≠ "2025-12-05" →
       findActivity (add_order "X" "Y" 3 7 "2025-12-05" sampleDB).2 D =
         findActivity sampleDB D) :=
  ⟨by decide, add_order_effect sampleDB "X" "Y" 3 7 "2025-12-05" (by decide)⟩

/-! ### C10: orders whose delivery date contains a space -/

/-- C10: when an order's stored `delivery_date` contains a space,
`delete_order` removes the order row but keys its decrement lookup by the
prefix of the date before the first space (`dateOnly`); the activity record
keyed by the full date string is left completely unchanged, while a record
keyed by the prefix — when one exists — receives the decrement instead. -/
theorem delete_order_space_date (db : DB) (o : Order) (hWF : WF db)
    (ho : o ∈ db.orders) (hs : ' ' ∈ o.delivery_date.toList) :
    (delete_order o.id db).orders = db.orders.filter (fun x => x.id ≠ o.id) ∧
    findActivity (delete_order o.id db) o.delivery_date =
      findActivity db o.delivery_date ∧
    (∀ D, D ≠ dateOnly o.delivery_date →
      findActivity (delete_order o.id db) D = findActivity db D) ∧
    ((findActivity db (dateOnly o.delivery_date)).isSome →
      activityCount (delete_order o.id db) (dateOnly o.delivery_date) =
        activityCount db (dateOnly o.delivery_date) - 1 ∧
      activityRevenue (delete_order o.id db) (dateOnly o.delivery_date) =
        activityRevenue db (dateOnly o.delivery_date) - lineTotal o) := by
  have hfo : db.orders.find? (fun x => x.id == o.id) = some o :=
    find?_id_of_nodup db.orders hWF.1 o ho
  have hne : o.delivery_date ≠ dateOnly o.delivery_date :=
    fun he => dateOnly_ne_of_space o.delivery_date hs he.symm
  unfold delete_order
  rw [hfo]
  dsimp only
  rcases hact : db.activity.find? (fun r => r.date == dateOnly o.delivery_date) with _ | r
  · rw [hact]
    refine ⟨rfl, rfl, fun D hD => rfl, ?_⟩
    intro hsome
    unfold findActivity at hsome
    rw [hact] at hsome
    cases hsome
  · rw [hact]
    have hr0 := List.find?_some hact
    have hrdate : r.date = dateOnly o.delivery_date := by simpa using hr0
    refine ⟨rfl, ?_, ?_, ?_⟩
    · simp only [findActivity]
      rw [find?_update_date db.activity (dateOnly o.delivery_date) o.delivery_date
        (fun r => { r with orders_count := r.orders_count - 1,
                           revenue := r.revenue - o.price * (o.quantity : Rat) })
        (fun r => rfl)]
      rcases hfD : db.activity.find? (fun x => x.date == o.delivery_date) with _ | r'
      · rw [hfD]
        rfl
      · rw [hfD]
        have hr1 := List.find?_some hfD
        have hr'D : r'.date = o.delivery_date := by simpa using hr1
        rw [Option.map_some', if_neg (by simp only [beq_iff_eq, hr'D]; exact hne)]
    · intro D hD
      simp only [findActivity]
      rw [find?_update_date db.activity (dateOnly o.delivery_date) D
        (fun r => { r with orders_count := r.orders_count - 1,
                           revenue := r.revenue - o.price * (o.quantity : Rat) })
        (fun r => rfl)]
      rcases hfD : db.activity.find? (fun x => x.date == D) with _ | r'
      · rw [hfD]
        rfl
      · rw [hfD]
        have hr1 := List.find?_some hfD
        have hr'D : r'.date = D := by simpa using hr1
        rw [Option.map_some', if_neg (by simp [hr'D, hD])]
    · intro _
      constructor
      · simp only [activityCount, findActivity]
        rw [find?_update_date db.activity (dateOnly o.delivery_date) (dateOnly o.delivery_date)
          (fun r => { r with orders_count := r.orders_count - 1,
                             revenue := r.revenue - o.price * (o.quantity : Rat) })
          (fun r => rfl), hact]
        simp [hrdate]
      · simp only [activityRevenue, findActivity]
        rw [find?_update_date db.activity (dateOnly o.delivery_date) (dateOnly o.delivery_date)
          (fun r => { r with orders_count := r.orders_count - 1,
                             revenue := r.revenue - o.price * (o.quantity : Rat) })
          (fun r => rfl), hact]
        simp [hrdate, lineTotal]

/-- Witness for C10 at a concrete state. -/
theorem delete_order_space_date_witness :
    (WF spaceDB ∧ spaceOrder ∈ spaceDB.orders ∧ ' ' ∈ spaceOrder.delivery_date.toList) ∧
    ((delete_order spaceOrder.id spaceDB).orders =
       spaceDB.orders.filter (fun x => x.id ≠ spaceOrder.id) ∧
     findActivity (delete_order spaceOrder.id spaceDB) spaceOrder.delivery_date =
       findActivity spaceDB spaceOrder.delivery_date ∧
     (∀ D, D ≠ dateOnly spaceOrder.delivery_date →
       findActivity (delete_order spaceOrder.id spaceDB) D = findActivity spaceDB D) ∧
     ((findActivity spaceDB (dateOnly spaceOrder.delivery_date)).isSome →
       activityCount (delete_order spaceOrder.id spaceDB) (dateOnly spaceOrder.delivery_date) =
         activityCount spaceDB (dateOnly spaceOrder.delivery_date) - 1 ∧
       activityRevenue (delete_order spaceOrder.id spaceDB) (dateOnly spaceOrder.delivery_date) =
         activityRevenue spaceDB (dateOnly spaceOrder.delivery_date) - lineTotal spaceOrder)) :=
  ⟨⟨by decide, by decide, by decide⟩,
   delete_order_space_date spaceDB spaceOrder (by decide) (by decide) (by decide)⟩

/-! ### C5: deleting an existing order -/

/-- C5 (amended): for every well-formed state containing an order row whose
delivery date has no space and for which an activity record exists,
`delete_order` removes exactly that row, decrements that record's count by 1
and its revenue by the order's line total — unconditionally, even to zero or
below — and changes no other record. -/
theorem delete_order_existing (db : DB) (o : Order) (hWF : WF db)
    (ho : o ∈ db.orders) (hns : ' ' ∉ o.delivery_date.toList)
    (hrec : (findActivity db o.delivery_date).isSome) :
    db.orders.Perm (o :: (delete_order o.id db).orders) ∧
    (delete_order o.id db).orders = db.orders.filter (fun x => x.id ≠ o.id) ∧
    activityCount (delete_order o.id db) o.delivery_date =
      activityCount db o.delivery_date - 1 ∧
    activityRevenue (delete_order o.id db) o.delivery_date =
      activityRevenue db o.delivery_date - lineTotal o ∧
    ∀ D, D ≠ o.delivery_date →
      findActivity (delete_order o.id db) D = findActivity db D := by
  have hfo : db.orders.find? (fun x => x.id == o.id) = some o :=
    find?_id_of_nodup db.orders hWF.1 o ho
  have hdo : dateOnly o.delivery_date = o.delivery_date :=
    dateOnly_eq_of_no_space o.delivery_date hns
  obtain ⟨r, hact⟩ := Option.isSome_iff_exists.mp hrec
  unfold findActivity at hact
  have hr0 := List.find?_some hact
  have hrdate : r.date = o.delivery_date := by simpa using hr0
  have hact' : db.activity.find? (fun x => x.date == dateOnly o.delivery_date) = some r := by
    rw [hdo]
    exact hact
  unfold delete_order
  rw [hfo]
  dsimp only
  rw [hact']
  refine ⟨?_, rfl, ?_, ?_, ?_⟩
  · rw [filter_ne_id_eq_erase db.orders hWF.1 o ho]
    exact List.perm_cons_erase ho
  · simp only [activityCount, findActivity]
    rw [hdo, find?_update_date db.activity o.delivery_date o.delivery_date
      (fun r => { r with orders_count := r.orders_count - 1,
                         revenue := r.revenue - o.price * (o.quantity : Rat) })
      (fun r => rfl), hact]
    simp [hrdate]
  · simp only [activityRevenue, findActivity]
    rw [hdo, find?_update_date db.activity o.delivery_date o.delivery_date
      (fun r => { r with orders_count := r.orders_count - 1,
                         revenue := r.revenue - o.price * (o.quantity : Rat) })
      (fun r => rfl), hact]
    simp [hrdate, lineTotal]
  · intro D hD
    simp only [findActivity]
    rw [hdo, find?_update_date db.activity o.delivery_date D
      (fun r => { r with orders_count := r.orders_count - 1,
                         revenue := r.revenue - o.price * (o.quantity : Rat) })
      (fun r => rfl)]
    rcases hfD : db.activity.find? (fun x => x.date == D) with _ | r'
    · rw [hfD]
      rfl
    · rw [hfD]
      have hr1 := List.find?_some hfD
      have hr'D : r'.date = D := by simpa using hr1
      rw [Option.map_some', if_neg (by simp [hr'D, hD])]

/-- Counterexample to C5 as stated: in a state whose only order has a
delivery date containing a space (and whose activity record is keyed by
that full string), `delete_order` removes the order row yet the activity
record keeps `orders_count = 1` and `revenue = 10` — it is not decremented. -/
theorem delete_order_existing_counterexample :
    (delete_order 1 spaceDB).orders = [] ∧
    activityCount (delete_order 1 spaceDB) "2025-12-03 00:00:00" = 1 ∧
    activityRevenue (delete_order 1 spaceDB) "2025-12-03 00:00:00" = 10 := by
  refine ⟨by decide, by decide, by decide⟩

/-- Witness for the amended C5 at a concrete space-free state. -/
theorem delete_order_existing_witness :
    (WF sampleDB ∧ sampleOrder ∈ sampleDB.orders ∧
     ' ' ∉ sampleOrder.delivery_date.toList ∧
     (findActivity sampleDB sampleOrder.delivery_date).isSome) ∧
    (sampleDB.orders.Perm (sampleOrder :: (delete_order sampleOrder.id sampleDB).orders) ∧
     (delete_order sampleOrder.id sampleDB).orders =
       sampleDB.orders.filter (fun x => x.id ≠ sampleOrder.id) ∧
     activityCount (delete_order sampleOrder.id sampleDB) sampleOrder.delivery_date =
       activityCount sampleDB sampleOrder.delivery_date - 1 ∧
     activityRevenue (delete_order sampleOrder.id sampleDB) sampleOrder.delivery_date =
       activityRevenue sampleDB sampleOrder.delivery_date - lineTotal sampleOrder ∧
     ∀ D, D ≠ sampleOrder.delivery_date →
       findActivity (delete_order sampleOrder.id sampleDB) D = findActivity sampleDB D) :=
  ⟨⟨by decide, by decide, by decide, by decide⟩,
   delete_order_existing sampleDB sampleOrder (by decide) (by decide) (by decide) (by decide)⟩

/-! ### C2: the revenue-stats window -/

/-- Every pair produced by the activity query has its date at or above the
cutoff. -/
theorem mem_primaryStats_le (cutoff : String) (activity : List ActivityRecord) :
    ∀ p ∈ primaryStats cutoff activity, cutoff ≤ p.1 := by
  intro p hp
  unfold primaryStats at hp
  obtain ⟨r, hr, rfl⟩ := List.mem_map.mp hp
  have hr2 : r ∈ activity.filter (fun r => cutoff ≤ r.date) :=
    (List.perm_insertionSort actDateAsc _).mem_iff.mp hr
  have := List.of_mem_filter hr2
  simpa using this

/-- The activity query output is sorted ascending by date. -/
theorem sorted_primaryStats (cutoff : String) (activity : List ActivityRecord) :
    List.Sorted pairDateAsc (primaryStats cutoff activity) := by
  unfold primaryStats
  exact List.Pairwise.map _ (fun a b h => h) (List.sorted_insertionSort actDateAsc _)

/-- Every pair produced by the fallback query has its date at or above the
cutoff. -/
theorem mem_fallbackStats_le (cutoff : String) (orders : List Order) :
    ∀ p ∈ fallbackStats cutoff orders, cutoff ≤ p.1 := by
  intro p hp
  unfold fallbackStats at hp
  obtain ⟨d, hd, rfl⟩ := List.mem_map.mp hp
  have hd2 : d ∈ ((orders.filter (fun o => cutoff ≤ o.delivery_date)).map
      (fun o => o.delivery_date)).dedup :=
    (List.perm_insertionSort _ _).mem_iff.mp hd
  rw [List.mem_dedup] at hd2
  obtain ⟨o, ho, rfl⟩ := List.mem_map.mp hd2
  have := List.of_mem_filter ho
  simpa using this

/-- The fallback query output is sorted ascending by date. -/
theorem sorted_fallbackStats (cutoff : String) (orders : List Order) :
    List.Sorted pairDateAsc (fallbackStats cutoff orders) := by
  unfold fallbackStats
  refine List.Pairwise.map _ ?_ (List.sorted_insertionSort (fun a b : String => a ≤ b) _)
  exact fun a b h => h

/-- C2 (amended): every `(date, revenue)` pair returned by
`get_revenue_stats(days)` has its date at or above `today − days` (as ISO
strings), and the pairs are ordered ascending by date. The original claim's
upper bound `date ≤ today` does not hold: the query imposes no upper bound,
so dates after today are also returned (see the counterexample). -/
theorem revenue_stats_window (today : Date) (days : Nat) (db : DB) :
    (∀ p ∈ get_revenue_stats_days today days db, cutoffStr today days ≤ p.1) ∧
    List.Sorted pairDateAsc (get_revenue_stats_days today days db) := by
  unfold get_revenue_stats_days get_revenue_stats
  dsimp only
  by_cases h : (primaryStats (cutoffStr today days) db.activity).isEmpty = true
  · rw [if_pos h]
    exact ⟨mem_fallbackStats_le _ _, sorted_fallbackStats _ _⟩
  · rw [if_neg h]
    exact ⟨mem_primaryStats_le _ _, sorted_primaryStats _ _⟩

/-- Counterexample to C2 as stated: with today = 2025-10-12 and days = 30,
`get_revenue_stats` returns the pair dated 2025-12-01, which lies after
today — outside the claimed closed interval `[today − days, today]`. -/
theorem revenue_stats_window_counterexample :
    ("2025-12-01", (5 : Rat)) ∈ get_revenue_stats_days ⟨2025, 10, 12⟩ 30 futureDB ∧
    ¬ (("2025-12-01" : String) ≤ formatDate ⟨2025, 10, 12⟩) := by
  exact ⟨by decide, by decide⟩

/-! ### C4: the fallback path and its equivalence with the primary path -/

/-- `orderedInsert` commutes with mapping a date into an activity record. -/
theorem orderedInsert_map_date (f : String → ActivityRecord)
    (hrel : ∀ a b : String, actDateAsc (f a) (f b) ↔ a ≤ b)
    (a : String) (l : List String) :
    (l.map f).orderedInsert actDateAsc (f a) =
      (l.orderedInsert (fun x y : String => x ≤ y) a).map f := by
  induction l with
  | nil => rfl
  | cons b bs ih =>
      by_cases hab : a ≤ b
      · rw [List.map_cons, List.orderedInsert, List.orderedInsert,
          if_pos ((hrel a b).mpr hab), if_pos hab, List.map_cons, List.map_cons]
      · rw [List.map_cons, List.orderedInsert, List.orderedInsert,
          if_neg (fun hc => hab ((hrel a b).mp hc)), if_neg hab, List.map_cons, ih]

/-- `insertionSort` commutes with mapping a date into an activity record. -/
theorem insertionSort_map_date (f : String → ActivityRecord)
    (hrel : ∀ a b : String, actDateAsc (f a) (f b) ↔ a ≤ b) (l : List String) :
    (l.map f).insertionSort actDateAsc =
      (l.insertionSort (fun x y : String => x ≤ y)).map f := by
  induction l with
  | nil => rfl
  | cons a l ih =>
      simp only [List.map_cons, List.insertionSort]
      rw [ih, orderedInsert_map_date f hrel]

/-- The distinct delivery dates of the in-window orders are exactly the
in-window members of the distinct delivery dates of all orders. -/
theorem window_dates_perm (cutoff : String) (orders : List Order) :
    ((((orders.filter (fun o => cutoff ≤ o.delivery_date)).map
        (fun o => o.delivery_date)).dedup)).Perm
      (((orders.map (fun o => o.delivery_date)).dedup).filter
        (fun d => cutoff ≤ d)) := by
  apply (List.perm_ext_iff_of_nodup (List.nodup_dedup _)
    ((List.nodup_dedup _).filter _)).mpr
  intro d
  simp only [List.mem_dedup, List.mem_filter, List.mem_map, decide_eq_true_eq]
  constructor
  · rintro ⟨o, ⟨ho, hle⟩, rfl⟩
    exact ⟨⟨o, ho, rfl⟩, hle⟩
  · rintro ⟨⟨o, ho, rfl⟩, hle⟩
    exact ⟨o, ⟨ho, hle⟩, rfl⟩

/-- For an in-window date, summing line totals over the in-window orders at
that date equals summing them over all orders at that date. -/
theorem sumTotals_filter_window (cutoff d : String) (orders : List Order)
    (hd : cutoff ≤ d) :
    sumTotals ((orders.filter (fun o => cutoff ≤ o.delivery_date)).filter
      (fun o => o.delivery_date == d)) = revD orders d := by
  unfold revD
  congr 1
  rw [List.filter_filter]
  apply List.filter_congr
  intro o _
  by_cases ho : o.delivery_date = d
  · simp [ho, hd]
  · simp [ho]

/-- The grouped-orders fallback query produces exactly what the activity
query would report over the specification's activity table. -/
theorem fallback_eq_primary_spec (cutoff : String) (orders : List Order) :
    fallbackStats cutoff orders = primaryStats cutoff (specActivity orders) := by
  unfold fallbackStats primaryStats specActivity
  dsimp only
  rw [List.filter_map]
  have hpq : ((fun r : ActivityRecord => decide (cutoff ≤ r.date)) ∘
      (fun d => (⟨0, d, countD orders d, revD orders d⟩ : ActivityRecord))) =
      (fun d : String => decide (cutoff ≤ d)) := rfl
  rw [hpq]
  rw [insertionSort_map_date
    (fun d => (⟨0, d, countD orders d, revD orders d⟩ : ActivityRecord))
    (fun a b => Iff.rfl)]
  rw [List.map_map]
  have hsort : ((((orders.filter (fun o => decide (cutoff ≤ o.delivery_date))).map
      (fun o => o.delivery_date)).dedup).insertionSort (fun x y : String => x ≤ y)) =
      ((((orders.map (fun o => o.delivery_date)).dedup).filter
        (fun d => decide (cutoff ≤ d))).insertionSort (fun x y : String => x ≤ y)) := by
    refine List.eq_of_perm_of_sorted (r := fun x y : String => x ≤ y) ?_
      (List.sorted_insertionSort _ _) (List.sorted_insertionSort _ _)
    exact (List.perm_insertionSort _ _).trans
      ((window_dates_perm cutoff orders).trans (List.perm_insertionSort _ _).symm)
  rw [hsort]
  apply List.map_congr_left
  intro d hd
  have hd1 : d ∈ ((orders.map (fun o => o.delivery_date)).dedup).filter
      (fun d => decide (cutoff ≤ d)) :=
    (List.perm_insertionSort _ _).mem_iff.mp hd
  have hdle : cutoff ≤ d := by
    have := (List.mem_filter.mp hd1).2
    simpa using this
  have hsum := sumTotals_filter_window cutoff d orders hdle
  simp only [Function.comp]
  exact congrArg (fun x => (d, x)) hsum

/-- C4: whenever the activity query over the window yields zero rows,
`get_revenue_stats` returns the grouped live-orders fallback, and that
fallback coincides — same pairs, same order — with what the activity-based
primary path would report over the specification's correct activity table
for those orders. -/
theorem revenue_stats_fallback (today : Date) (days : Nat) (db : DB)
    (h : primaryStats (cutoffStr today days) db.activity = []) :
    get_revenue_stats_days today days db =
      fallbackStats (cutoffStr today days) db.orders ∧
    fallbackStats (cutoffStr today days) db.orders =
      primaryStats (cutoffStr today days) (specActivity db.orders) := by
  constructor
  · unfold get_revenue_stats_days get_revenue_stats
    dsimp only
    rw [h]
    rfl
  · exact fallback_eq_primary_spec _ _

/-- Witness for C4 at a concrete state with one order and an empty activity
table. -/
theorem revenue_stats_fallback_witness :
    primaryStats (cutoffStr ⟨2025, 12, 10⟩ 30) noActivityDB.activity = [] ∧
    (get_revenue_stats_days ⟨2025, 12, 10⟩ 30 noActivityDB =
       fallbackStats (cutoffStr ⟨2025, 12, 10⟩ 30) noActivityDB.orders ∧
     fallbackStats (cutoffStr ⟨2025, 12, 10⟩ 30) noActivityDB.orders =
       primaryStats (cutoffStr ⟨2025, 12, 10⟩ 30) (specActivity noActivityDB.orders)) :=
  ⟨by decide, revenue_stats_fallback ⟨2025, 12, 10⟩ 30 noActivityDB (by decide)⟩

/-! ### C9: the residual zero activity record -/

/-- C9: starting from a well-formed state with no activity record for the
plain ISO date `D`, adding an order dated `D` and then deleting that same
order leaves a residual activity record `(D, 0)`, and `get_revenue_stats`
reports the pair `(D, 0)` whenever `D` lies at or above the window cutoff —
even though no live order has delivery date `D`. -/
theorem residual_zero_record (db : DB) (c p : String) (q : Int) (pr : Rat)
    (D : String) (today : Date) (days : Nat) (hWF : WF db)
    (hISO : isPlainISO D = true) (hnone : findActivity db D = none)
    (hwin : cutoffStr today days ≤ D) :
    (D, (0 : Rat)) ∈ get_revenue_stats_days today days
      (delete_order (add_order c p q pr D db).1 (add_order c p q pr D db).2) := by
  unfold findActivity at hnone
  have hadd : add_order c p q pr D db =
      (db.nextOrderId,
       { orders := db.orders ++ [⟨db.nextOrderId, c, p, q, pr, D, processingStatus⟩]
         activity := db.activity ++ [⟨db.nextActivityId, D, 1, pr * (q : Rat)⟩]
         nextOrderId := db.nextOrderId + 1
         nextActivityId := db.nextActivityId + 1 }) := by
    unfold add_order
    rw [hnone]
  have hfindo : ((db.orders ++
      [(⟨db.nextOrderId, c, p, q, pr, D, processingStatus⟩ : Order)]).find?
        (fun o => o.id == db.nextOrderId)) =
      some (⟨db.nextOrderId, c, p, q, pr, D, processingStatus⟩ : Order) := by
    rw [List.find?_append]
    have h1 : db.orders.find? (fun o => o.id == db.nextOrderId) = none := by
      rw [List.find?_eq_none]
      intro o ho
      simpa using Nat.ne_of_lt (hWF.2.2 o ho)
    rw [h1]
    simp [List.find?]
  have hdD : dateOnly D = D :=
    dateOnly_eq_of_no_space D (isPlainISO_no_space D hISO)
  have hfinda : ((db.activity ++
      [(⟨db.nextActivityId, D, 1, pr * (q : Rat)⟩ : ActivityRecord)]).find?
        (fun r => r.date == D)) =
      some (⟨db.nextActivityId, D, 1, pr * (q : Rat)⟩ : ActivityRecord) := by
    rw [List.find?_append, hnone]
    simp [List.find?]
  have hact3 : (delete_order (add_order c p q pr D db).1
      (add_order c p q pr D db).2).activity =
      db.activity ++ [⟨db.nextActivityId, D, 0, 0⟩] := by
    rw [hadd]
    unfold delete_order
    dsimp only
    rw [hfindo]
    dsimp only
    rw [hdD, hfinda]
    dsimp only
    rw [List.map_append]
    congr 1
    · conv_rhs => rw [← List.map_id db.activity]
      apply List.map_congr_left
      intro r hr
      have hne : ¬ ((r.date == D) = true) := List.find?_eq_none.mp hnone r hr
      rw [if_neg hne]
      rfl
    · simp
  unfold get_revenue_stats_days get_revenue_stats
  dsimp only
  have hmem : (⟨db.nextActivityId, D, 0, 0⟩ : ActivityRecord) ∈
      ((delete_order (add_order c p q pr D db).1
        (add_order c p q pr D db).2).activity.filter
          (fun r => cutoffStr today days ≤ r.date)) := by
    rw [hact3]
    refine List.mem_filter.mpr ⟨?_, by simpa using hwin⟩
    exact List.mem_append_right _ (List.mem_singleton.mpr rfl)
  have hmemP : (D, (0 : Rat)) ∈ primaryStats (cutoffStr today days)
      (delete_order (add_order c p q pr D db).1
        (add_order c p q pr D db).2).activity := by
    unfold primaryStats
    exact List.mem_map_of_mem _ ((List.perm_insertionSort actDateAsc _).mem_iff.mpr hmem)
  have hne : ¬ ((primaryStats (cutoffStr today days)
      (delete_order (add_order c p q pr D db).1
        (add_order c p q pr D db).2).activity).isEmpty = true) := by
    rw [List.isEmpty_iff]
    exact List.ne_nil_of_mem hmemP
  rw [if_neg hne]
  exact hmemP

/-- Witness for C9: from the empty store, add an order dated 2025-12-03 and
delete it; with today = 2025-12-10 and a 30-day window the stats contain
(2025-12-03, 0). -/
theorem residual_zero_record_witness :
    (WF emptyDB ∧ isPlainISO "2025-12-03" = true ∧
     findActivity emptyDB "2025-12-03" = none ∧
     cutoffStr ⟨2025, 12, 10⟩ 30 ≤ "2025-12-03") ∧
    ("2025-12-03", (0 : Rat)) ∈ get_revenue_stats_days ⟨2025, 12, 10⟩ 30
      (delete_order (add_order "Иван" "Молоко" 1 10 "2025-12-03" emptyDB).1
        (add_order "Иван" "Молоко" 1 10 "2025-12-03" emptyDB).2) :=
  ⟨⟨by decide, by decide, by decide, by decide⟩,
   residual_zero_record emptyDB "Иван" "Молоко" 1 10 "2025-12-03" ⟨2025, 12, 10⟩ 30
     (by decide) (by decide) (by decide) (by decide)⟩

/-! ### C1: the aggregate invariant over operation sequences -/

/-- Appending one order row adds its contribution to the per-date count. -/
theorem countD_append_single (l : List Order) (o : Order) (d : String) :
    countD (l ++ [o]) d = countD l d + (if o.delivery_date = d then 1 else 0) := by
  by_cases h : o.delivery_date = d
  · simp only [countD, List.filter_append, List.filter_cons, h, beq_self_eq_true,
      if_pos, List.filter_nil, List.length_append, List.length_cons, List.length_nil]
    push_cast
    ring
  · simp only [countD, List.filter_append, List.filter_cons,
      beq_eq_false_iff_ne.mpr h, Bool.false_eq_true, if_false, List.filter_nil,
      List.length_append, List.length_nil, Nat.add_zero, if_neg h, Int.add_zero]

/-- Appending one order row adds its contribution to the per-date revenue. -/
theorem revD_append_single (l : List Order) (o : Order) (d : String) :
    revD (l ++ [o]) d = revD l d + (if o.delivery_date = d then lineTotal o else 0) := by
  by_cases h : o.delivery_date = d
  · simp only [revD, sumTotals, List.filter_append, List.filter_cons, h,
      beq_self_eq_true, if_pos, List.filter_nil, List.map_append, List.sum_append,
      List.map_cons, List.map_nil, List.sum_cons, List.sum_nil, add_zero]
  · simp only [revD, sumTotals, List.filter_append, List.filter_cons,
      beq_eq_false_iff_ne.mpr h, Bool.false_eq_true, if_false, List.filter_nil,
      List.map_append, List.sum_append, List.map_nil, List.sum_nil, add_zero, if_neg h]

/-- Removing a member order row (by its id, with distinct ids) subtracts its
contribution from the per-date count. -/
theorem countD_filter_ne (l : List Order) (hnd : (l.map (fun o => o.id)).Nodup)
    (o : Order) (ho : o ∈ l) (d : String) :
    countD (l.filter (fun x => x.id ≠ o.id)) d =
      countD l d - (if o.delivery_date = d then 1 else 0) := by
  rw [filter_ne_id_eq_erase l hnd o ho]
  have hperm : l.Perm (o :: l.erase o) := List.perm_cons_erase ho
  have h1 : countD l d = countD (o :: l.erase o) d := by
    unfold countD
    rw [(hperm.filter _).length_eq]
  rw [h1]
  unfold countD
  by_cases h : o.delivery_date = d
  · simp only [List.filter_cons, h, beq_self_eq_true, if_pos, List.length_cons, if_true]
    push_cast
    ring
  · simp only [List.filter_cons, beq_eq_false_iff_ne.mpr h, Bool.false_eq_true,
      if_false, if_neg h, Int.sub_zero]

/-- Removing a member order row (by its id, with distinct ids) subtracts its
contribution from the per-date revenue. -/
theorem revD_filter_ne (l : List Order) (hnd : (l.map (fun o => o.id)).Nodup)
    (o : Order) (ho : o ∈ l) (d : String) :
    revD (l.filter (fun x => x.id ≠ o.id)) d =
      revD l d - (if o.delivery_date = d then lineTotal o else 0) := by
  rw [filter_ne_id_eq_erase l hnd o ho]
  have hperm : l.Perm (o :: l.erase o) := List.perm_cons_erase ho
  have h1 : revD l d = revD (o :: l.erase o) d := by
    unfold revD sumTotals
    rw [((hperm.filter _).map _).sum_eq]
  rw [h1]
  unfold revD sumTotals
  by_cases h : o.delivery_date = d
  · simp only [List.filter_cons, h, beq_self_eq_true, if_pos, List.map_cons,
      List.sum_cons, if_true]
    ring
  · simp only [List.filter_cons, beq_eq_false_iff_ne.mpr h, Bool.false_eq_true,
      if_false, if_neg h, sub_zero]

/-- An update map keyed by date does not change the list of dates. -/
theorem dates_map_update (l : List ActivityRecord) (k : String)
    (f : ActivityRecord → ActivityRecord) (hf : ∀ r, (f r).date = r.date) :
    (l.map (fun r => if r.date == k then f r else r)).map (fun r => r.date) =
      l.map (fun r => r.date) := by
  rw [List.map_map]
  apply List.map_congr_left
  intro r _
  by_cases h : r.date = k
  · simp [Function.comp, h, hf]
  · simp [Function.comp, h]

/-- An update function of the activity table preserves each record's date. -/
theorem update_preserves_date (k : String) (f : ActivityRecord → ActivityRecord)
    (hf : ∀ r, (f r).date = r.date) (r : ActivityRecord) :
    ((if r.date == k then f r else r)).date = r.date := by
  by_cases h : r.date = k
  · simp [h, hf]
  · simp [h]

/-- `add_order` with a space-free date preserves the aggregate invariant. -/
theorem inv_add (db : DB) (hInv : Inv db) (c p : String) (q : Int) (pr : Rat)
    (d : String) (hd : ' ' ∉ d.toList) : Inv (add_order c p q pr d db).2 := by
  obtain ⟨⟨hids, hdates, hlt⟩, hnsp, hrec, hagg⟩ := hInv
  rcases hfind : db.activity.find? (fun r => r.date == d) with _ | r0
  · have hnod : ∀ o ∈ db.orders, o.delivery_date ≠ d := by
      intro o ho he
      obtain ⟨r, hr, hrd⟩ := hrec o ho
      exact (List.find?_eq_none.mp hfind r hr) (by simp [hrd, he])
    unfold add_order
    rw [hfind]
    dsimp only
    refine ⟨⟨?_, ?_, ?_⟩, ?_, ?_, ?_⟩
    · rw [List.map_append]
      refine List.nodup_append.mpr ⟨hids, List.nodup_singleton _, ?_⟩
      intro a ha hb
      simp only [List.map_cons, List.map_nil, List.mem_singleton] at hb
      subst hb
      obtain ⟨o, ho, hoid⟩ := List.mem_map.mp ha
      exact absurd hoid (Nat.ne_of_lt (hlt o ho))
    · rw [List.map_append]
      refine List.nodup_append.mpr ⟨hdates, List.nodup_singleton _, ?_⟩
      intro a ha hb
      simp only [List.map_cons, List.map_nil, List.mem_singleton] at hb
      subst hb
      obtain ⟨r, hr, hrd⟩ := List.mem_map.mp ha
      exact (List.find?_eq_none.mp hfind r hr) (by simp [hrd])
    · intro o ho
      rcases List.mem_append.mp ho with h | h
      · exact Nat.lt_trans (hlt o h) (Nat.lt_succ_self _)
      · rw [List.mem_singleton] at h
        subst h
        exact Nat.lt_succ_self _
    · intro o ho
      rcases List.mem_append.mp ho with h | h
      · exact hnsp o h
      · rw [List.mem_singleton] at h
        subst h
        exact hd
    · intro o ho
      rcases List.mem_append.mp ho with h | h
      · obtain ⟨r, hr, hrd⟩ := hrec o h
        exact ⟨r, List.mem_append_left _ hr, hrd⟩
      · rw [List.mem_singleton] at h
        subst h
        exact ⟨_, List.mem_append_right _ (List.mem_singleton.mpr rfl), rfl⟩
    · intro r hrmem
      rcases List.mem_append.mp hrmem with h | h
      · have hrd : r.date ≠ d := fun he =>
          (List.find?_eq_none.mp hfind r h) (by simp [he])
        obtain ⟨hc, hv⟩ := hagg r h
        constructor
        · rw [countD_append_single, if_neg (fun he => hrd he.symm), add_zero]
          exact hc
        · rw [revD_append_single, if_neg (fun he => hrd he.symm), add_zero]
          exact hv
      · rw [List.mem_singleton] at h
        subst h
        have h0 : countD db.orders d = 0 := by
          unfold countD
          rw [List.filter_eq_nil_iff.mpr (fun o ho => by simpa using hnod o ho)]
          rfl
        have h0v : revD db.orders d = 0 := by
          unfold revD sumTotals
          rw [List.filter_eq_nil_iff.mpr (fun o ho => by simpa using hnod o ho)]
          rfl
        constructor
        · rw [countD_append_single, if_pos rfl, h0]
          rfl
        · rw [revD_append_single, if_pos rfl, h0v, zero_add]
          rfl
  · have hr0d : r0.date = d := by simpa using List.find?_some hfind
    unfold add_order
    rw [hfind]
    dsimp only
    refine ⟨⟨?_, ?_, ?_⟩, ?_, ?_, ?_⟩
    · rw [List.map_append]
      refine List.nodup_append.mpr ⟨hids, List.nodup_singleton _, ?_⟩
      intro a ha hb
      simp only [List.map_cons, List.map_nil, List.mem_singleton] at hb
      subst hb
      obtain ⟨o, ho, hoid⟩ := List.mem_map.mp ha
      exact absurd hoid (Nat.ne_of_lt (hlt o ho))
    · rw [dates_map_update db.activity d
        (fun r => { r with orders_count := r.orders_count + 1,
                           revenue := r.revenue + pr * (q : Rat) })
        (fun r => rfl)]
      exact hdates
    · intro o ho
      rcases List.mem_append.mp ho with h | h
      · exact Nat.lt_trans (hlt o h) (Nat.lt_succ_self _)
      · rw [List.mem_singleton] at h
        subst h
        exact Nat.lt_succ_self _
    · intro o ho
      rcases List.mem_append.mp ho with h | h
      · exact hnsp o h
      · rw [List.mem_singleton] at h
        subst h
        exact hd
    · intro o ho
      rcases List.mem_append.mp ho with h | h
      · obtain ⟨r, hr, hrd⟩ := hrec o h
        refine ⟨_, List.mem_map_of_mem _ hr, ?_⟩
        rw [update_preserves_date d
          (fun r => { r with orders_count := r.orders_count + 1,
                             revenue := r.revenue + pr * (q : Rat) })
          (fun r => rfl) r]
        exact hrd
      · rw [List.mem_singleton] at h
        subst h
        refine ⟨_, List.mem_map_of_mem _ (List.mem_of_find?_eq_some hfind), ?_⟩
        rw [update_preserves_date d
          (fun r => { r with orders_count := r.orders_count + 1,
                             revenue := r.revenue + pr * (q : Rat) })
          (fun r => rfl) r0]
        exact hr0d
    · intro r' hr'
      obtain ⟨r, hr, rfl⟩ := List.mem_map.mp hr'
      obtain ⟨hc, hv⟩ := hagg r hr
      by_cases hcase : r.date = d
      · rw [if_pos (by simp [hcase])]
        constructor
        · show r.orders_count + 1 = countD (db.orders ++
            [⟨db.nextOrderId, c, p, q, pr, d, processingStatus⟩]) r.date
          rw [countD_append_single, if_pos hcase.symm, hc]
        · show r.revenue + pr * (q : Rat) = revD (db.orders ++
            [⟨db.nextOrderId, c, p, q, pr, d, processingStatus⟩]) r.date
          rw [revD_append_single, if_pos hcase.symm, hv]
          rfl
      · rw [if_neg (by simp [hcase])]
        constructor
        · rw [countD_append_single, if_neg (fun he => hcase he.symm), add_zero]
          exact hc
        · rw [revD_append_single, if_neg (fun he => hcase he.symm), add_zero]
          exact hv

/-- `delete_order` preserves the aggregate invariant. -/
theorem inv_del (db : DB) (hInv : Inv db) (i : Nat) : Inv (delete_order i db) := by
  obtain ⟨⟨hids, hdates, hlt⟩, hnsp, hrec, hagg⟩ := hInv
  rcases hfind : db.orders.find? (fun o => o.id == i) with _ | o
  · have hnoop : delete_order i db = db :=
      delete_order_of_not_found db i
        (fun o ho => by simpa using List.find?_eq_none.mp hfind o ho)
    rw [hnoop]
    exact ⟨⟨hids, hdates, hlt⟩, hnsp, hrec, hagg⟩
  · have hoi : o.id = i := by simpa using List.find?_some hfind
    have homem : o ∈ db.orders := List.mem_of_find?_eq_some hfind
    have hns : ' ' ∉ o.delivery_date.toList := hnsp o homem
    have hdo : dateOnly o.delivery_date = o.delivery_date :=
      dateOnly_eq_of_no_space _ hns
    obtain ⟨ra, hra, hrad⟩ := hrec o homem
    have hfa2 : db.activity.find? (fun x => x.date == o.delivery_date) = some ra := by
      rw [← hrad]
      exact find?_date_of_nodup db.activity hdates ra hra
    unfold delete_order
    rw [hfind]
    dsimp only
    rw [hdo, hfa2]
    dsimp only
    refine ⟨⟨?_, ?_, ?_⟩, ?_, ?_, ?_⟩
    · exact List.Nodup.sublist ((List.filter_sublist _).map _) hids
    · rw [dates_map_update db.activity o.delivery_date
        (fun r => { r with orders_count := r.orders_count - 1,
                           revenue := r.revenue - o.price * (o.quantity : Rat) })
        (fun r => rfl)]
      exact hdates
    · intro x hx
      exact hlt x (List.mem_of_mem_filter hx)
    · intro x hx
      exact hnsp x (List.mem_of_mem_filter hx)
    · intro x hx
      obtain ⟨r, hr, hrd⟩ := hrec x (List.mem_of_mem_filter hx)
      refine ⟨_, List.mem_map_of_mem _ hr, ?_⟩
      rw [update_preserves_date o.delivery_date
        (fun r => { r with orders_count := r.orders_count - 1,
                           revenue := r.revenue - o.price * (o.quantity : Rat) })
        (fun r => rfl) r]
      exact hrd
    · intro r' hr'
      obtain ⟨r, hr, rfl⟩ := List.mem_map.mp hr'
      obtain ⟨hc, hv⟩ := hagg r hr
      rw [← hoi]
      by_cases hcase : r.date = o.delivery_date
      · rw [if_pos (by simp [hcase])]
        constructor
        · show r.orders_count - 1 =
            countD (db.orders.filter (fun x => x.id ≠ o.id)) r.date
          rw [countD_filter_ne db.orders hids o homem, if_pos hcase.symm, hc]
        · show r.revenue - o.price * (o.quantity : Rat) =
            revD (db.orders.filter (fun x => x.id ≠ o.id)) r.date
          rw [revD_filter_ne db.orders hids o homem, if_pos hcase.symm, hv]
          rfl
      · rw [if_neg (by simp [hcase])]
        constructor
        · rw [countD_filter_ne db.orders hids o homem,
            if_neg (fun he => hcase he.symm), Int.sub_zero]
          exact hc
        · rw [revD_filter_ne db.orders hids o homem,
            if_neg (fun he => hcase he.symm), sub_zero]
          exact hv

/-- The empty store satisfies the aggregate invariant. -/
theorem inv_empty : Inv emptyDB := by
  refine ⟨⟨?_, ?_, ?_⟩, ?_, ?_, ?_⟩ <;> simp [emptyDB, WF]

/-- Folding space-free operations preserves the aggregate invariant. -/
theorem inv_foldl (ops : List Op) (db : DB) (hInv : Inv db)
    (h : ∀ op ∈ ops, op.datePlain = true) : Inv (ops.foldl applyOp db) := by
  induction ops generalizing db with
  | nil => exact hInv
  | cons op ops ih =>
      rw [List.foldl_cons]
      refine ih (applyOp db op) ?_ (fun x hx => h x (List.mem_cons_of_mem _ hx))
      cases op with
      | add c p q pr d =>
          have hp : isPlainISO d = true := by
            simpa [Op.datePlain] using h _ (List.mem_cons_self _ _)
          exact inv_add db hInv c p q pr d (isPlainISO_no_space d hp)
      | del i => exact inv_del db hInv i

/-- No operation ever removes an activity record for a given date. -/
theorem activity_date_mono (op : Op) (db : DB) (d : String)
    (h : ∃ r ∈ db.activity, r.date = d) :
    ∃ r ∈ (applyOp db op).activity, r.date = d := by
  obtain ⟨r, hr, hrd⟩ := h
  cases op with
  | add c p q pr dd =>
      unfold applyOp add_order
      rcases hf : db.activity.find? (fun x => x.date == dd) with _ | r0 <;>
        dsimp only <;> rw [hf] <;> dsimp only
      · exact ⟨r, List.mem_append_left _ hr, hrd⟩
      · refine ⟨_, List.mem_map_of_mem _ hr, ?_⟩
        rw [update_preserves_date dd
          (fun r => { r with orders_count := r.orders_count + 1,
                             revenue := r.revenue + pr * (q : Rat) })
          (fun r => rfl) r]
        exact hrd
  | del i =>
      unfold applyOp delete_order
      rcases hf : db.orders.find? (fun x => x.id == i) with _ | o <;>
        dsimp only <;> rw [hf] <;> dsimp only
      · exact ⟨r, hr, hrd⟩
      · rcases hf2 : db.activity.find?
            (fun x => x.date == dateOnly o.delivery_date) with _ | r1 <;>
          rw [hf2] <;> dsimp only
        · exact ⟨r, hr, hrd⟩
        · refine ⟨_, List.mem_map_of_mem _ hr, ?_⟩
          rw [update_preserves_date (dateOnly o.delivery_date)
            (fun r => { r with orders_count := r.orders_count - 1,
                               revenue := r.revenue - o.price * (o.quantity : Rat) })
            (fun r => rfl) r]
          exact hrd

/-- After an `add` for date `d`, an activity record for `d` exists. -/
theorem add_creates_record (db : DB) (c p : String) (q : Int) (pr : Rat)
    (d : String) : ∃ r ∈ (applyOp db (.add c p q pr d)).activity, r.date = d := by
  unfold applyOp add_order
  rcases hf : db.activity.find? (fun x => x.date == d) with _ | r0 <;>
    dsimp only <;> rw [hf] <;> dsimp only
  · exact ⟨_, List.mem_append_right _ (List.mem_singleton.mpr rfl), rfl⟩
  · have h0 : r0.date = d := by simpa using List.find?_some hf
    refine ⟨_, List.mem_map_of_mem _ (List.mem_of_find?_eq_some hf), ?_⟩
    rw [update_preserves_date d
      (fun r => { r with orders_count := r.orders_count + 1,
                         revenue := r.revenue + pr * (q : Rat) })
      (fun r => rfl) r0]
    exact h0

/-- Folding operations never removes an activity record for a given date. -/
theorem activity_date_mono_foldl (ops : List Op) (db : DB) (d : String)
    (h : ∃ r ∈ db.activity, r.date = d) :
    ∃ r ∈ (ops.foldl applyOp db).activity, r.date = d := by
  induction ops generalizing db with
  | nil => exact h
  | cons op ops ih =>
      rw [List.foldl_cons]
      exact ih _ (activity_date_mono op db d h)

/-- Every `add` occurring in an operation sequence leaves an activity record
for its date in the final state. -/
theorem record_of_add_foldl (ops : List Op) (db : DB) (c p : String) (q : Int)
    (pr : Rat) (d : String) (hmem : Op.add c p q pr d ∈ ops) :
    ∃ r ∈ (ops.foldl applyOp db).activity, r.date = d := by
  induction ops generalizing db with
  | nil => cases hmem
  | cons op ops ih =>
      rw [List.foldl_cons]
      rcases List.mem_cons.mp hmem with heq | hmem2
      · rw [← heq]
        exact activity_date_mono_foldl ops _ d
          (heq ▸ add_creates_record db c p q pr d)
      · exact ih _ hmem2

/-- Every live order row either predates the operations or carries the price
and quantity of some `add` among them. -/
theorem orders_from_applyOp (op : Op) (db : DB) :
    ∀ o ∈ (applyOp db op).orders, o ∈ db.orders ∨
      ∃ c p d, op = Op.add c p o.quantity o.price d := by
  intro o ho
  cases op with
  | add c p q pr d =>
      unfold applyOp add_order at ho
      rcases hf : db.activity.find? (fun x => x.date == d) with _ | r0 <;>
          dsimp only at ho <;> rw [hf] at ho <;> dsimp only at ho <;>
        rcases List.mem_append.mp ho with h | h
      · exact Or.inl h
      · rw [List.mem_singleton] at h
        subst h
        exact Or.inr ⟨c, p, d, rfl⟩
      · exact Or.inl h
      · rw [List.mem_singleton] at h
        subst h
        exact Or.inr ⟨c, p, d, rfl⟩
  | del i =>
      unfold applyOp delete_order at ho
      rcases hf : db.orders.find? (fun x => x.id == i) with _ | o2 <;>
          dsimp only at ho <;> rw [hf] at ho <;> dsimp only at ho
      · exact Or.inl (List.mem_of_mem_filter ho)
      · exact Or.inl (List.mem_of_mem_filter ho)

/-- Provenance of order rows across a whole operation sequence. -/
theorem orders_from_foldl (ops : List Op) (db : DB) :
    ∀ o ∈ (ops.foldl applyOp db).orders, o ∈ db.orders ∨
      ∃ c p d, Op.add c p o.quantity o.price d ∈ ops := by
  induction ops generalizing db with
  | nil => exact fun o ho => Or.inl ho
  | cons op ops ih =>
      intro o ho
      rw [List.foldl_cons] at ho
      rcases ih (applyOp db op) o ho with h | ⟨c, p, d, hmem⟩
      · rcases orders_from_applyOp op db o h with h2 | ⟨c, p, d, heq⟩
        · exact Or.inl h2
        · refine Or.inr ⟨c, p, d, ?_⟩
          rw [heq]
          exact List.mem_cons_self _ _
      · exact Or.inr ⟨c, p, d, List.mem_cons_of_mem _ hmem⟩

/-- C1 (amended): for every sequence of `add_order`/`delete_order` operations
from the empty store in which every delivery date is a plain ISO
`YYYY-MM-DD` string, the resulting state satisfies: for every date `D` the
recorded `orders_count` equals the number of live orders dated `D` and the
recorded `revenue` equals the sum of their line totals (0/0 when no record
exists, which happens only when no add for `D` ever occurred);
`orders_count` is never negative; and `revenue` is never negative provided
every added line total is nonnegative — with a negative quantity or price
(which `add_order` accepts) the revenue does go negative, refuting the
unconditional claim (see the counterexample). -/
theorem aggregate_invariant (ops : List Op)
    (hplain : ∀ op ∈ ops, op.datePlain = true) :
    (∀ D, activityCount (runOps ops) D = countD (runOps ops).orders D ∧
      activityRevenue (runOps ops) D = revD (runOps ops).orders D) ∧
    (∀ D, findActivity (runOps ops) D = none →
      ∀ c p q pr, Op.add c p q pr D ∉ ops) ∧
    (∀ D, 0 ≤ activityCount (runOps ops) D) ∧
    ((∀ op ∈ ops, op.lineNonneg = true) →
      ∀ D, 0 ≤ activityRevenue (runOps ops) D) := by
  have hInv : Inv (runOps ops) := inv_foldl ops emptyDB inv_empty hplain
  obtain ⟨⟨hids, hdates, hlt⟩, hnsp, hrec, hagg⟩ := hInv
  have hmain : ∀ D, activityCount (runOps ops) D = countD (runOps ops).orders D ∧
      activityRevenue (runOps ops) D = revD (runOps ops).orders D := by
    intro D
    unfold activityCount activityRevenue findActivity
    rcases hf : (runOps ops).activity.find? (fun r => r.date == D) with _ | r
    · have hnoorder : ∀ o ∈ (runOps ops).orders, ¬ (o.delivery_date == D) = true := by
        intro o ho hbe
        obtain ⟨r, hr, hrd⟩ := hrec o ho
        refine (List.find?_eq_none.mp hf r hr) ?_
        simp only [beq_iff_eq] at hbe ⊢
        rw [hrd, hbe]
      have h1 : countD (runOps ops).orders D = 0 := by
        unfold countD
        rw [List.filter_eq_nil_iff.mpr hnoorder]
        rfl
      have h2 : revD (runOps ops).orders D = 0 := by
        unfold revD sumTotals
        rw [List.filter_eq_nil_iff.mpr hnoorder]
        rfl
      rw [hf, h1, h2]
      exact ⟨rfl, rfl⟩
    · have hrd : r.date = D := by simpa using List.find?_some hf
      obtain ⟨hc, hv⟩ := hagg r (List.mem_of_find?_eq_some hf)
      have hc2 : r.orders_count = countD (runOps ops).orders D := hrd ▸ hc
      have hv2 : r.revenue = revD (runOps ops).orders D := hrd ▸ hv
      rw [hf]
      exact ⟨hc2, hv2⟩
  refine ⟨hmain, ?_, ?_, ?_⟩
  · intro D hf c p q pr hmem
    obtain ⟨r, hr, hrd⟩ := record_of_add_foldl ops emptyDB c p q pr D hmem
    unfold findActivity at hf
    exact List.find?_eq_none.mp hf r hr (by simp [hrd])
  · intro D
    rw [(hmain D).1]
    unfold countD
    exact Int.natCast_nonneg _
  · intro hnn D
    rw [(hmain D).2]
    unfold revD sumTotals
    apply List.sum_nonneg
    intro x hx
    obtain ⟨o, ho, rfl⟩ := List.mem_map.mp hx
    have homem : o ∈ (runOps ops).orders := List.mem_of_mem_filter ho
    rcases orders_from_foldl ops emptyDB o homem with h | ⟨c, p, d, hmem⟩
    · cases h
    · have := hnn _ hmem
      unfold lineTotal
      simpa [Op.lineNonneg] using this

/-- Counterexample to C1 as stated: a single add with a plain ISO date but a
negative price (which `add_order` accepts and stores) drives the recorded
revenue to −5 — revenue can go negative. -/
theorem aggregate_invariant_counterexample :
    Op.datePlain (Op.add "Иван" "Молоко" 1 (-5) "2025-01-01") = true ∧
    activityRevenue (runOps negPriceOps) "2025-01-01" = -5 ∧
    activityRevenue (runOps negPriceOps) "2025-01-01" < 0 := by
  exact ⟨by decide, by decide, by decide⟩

/-- Witness for the amended C1 on the concrete sequence add-then-delete. -/
theorem aggregate_invariant_witness :
    (∀ op ∈ addDelOps, op.datePlain = true) ∧
    ((∀ D, activityCount (runOps addDelOps) D = countD (runOps addDelOps).orders D ∧
       activityRevenue (runOps addDelOps) D = revD (runOps addDelOps).orders D) ∧
     (∀ D, findActivity (runOps addDelOps) D = none →
       ∀ c p q pr, Op.add c p q pr D ∉ addDelOps) ∧
     (∀ D, 0 ≤ activityCount (runOps addDelOps) D) ∧
     ((∀ op ∈ addDelOps, op.lineNonneg = true) →
       ∀ D, 0 ≤ activityRevenue (runOps addDelOps) D)) :=
  ⟨by decide, aggregate_invariant addDelOps (by decide)⟩

end Delivery
